import Mathlib

/-!
Verification of the klyro-resume backend (`src/backend/server.js`).

We shallowly embed the request-handling pipeline of the two POST routes
(`/upload` and `/api/keyword-match`) and the keyword-matching computation.
Strings are modelled as Lean `String` / `List Char`; the JavaScript regex
`\W` (non-word character) is the complement of ASCII `[A-Za-z0-9_]`, which
is exact for the `u`-flag-free regex the code uses.  `String.toLowerCase`
is modelled by `Char.toLower` (ASCII case mapping).  `Math.round` is
`fun q => Int.floor (q + 1/2)` (round half towards positive infinity, the
ECMAScript definition).  The score arithmetic appears twice: `matchScore`
evaluates the ratio formula in exact rational arithmetic (the spec's
idealization of lines 187-189), while `matchScoreFl` evaluates it in
IEEE-754 binary64 as JavaScript does, with each operation rounded to 53
significant bits, nearest, ties to even; the two agree except within one
unit at double-rounding boundaries (`match_score_float_within_one`), and
the properties stated through `matchScore` — the [0, 100] bounds, the
perfect-score criterion, the score-0 cases — are insensitive to that
difference.  External effects (file reading, pdf-parse, mammoth, the
Hugging Face call) are oracle inputs carried by the request model.
-/

namespace Klyro

/-- JavaScript word character: the class `\w` of a non-unicode regex,
exactly ASCII `[A-Za-z0-9_]` (code points 97-122, 65-90, 48-57 and 95). -/
def isWordChar (c : Char) : Bool :=
  decide ((97 ≤ c.toNat ∧ c.toNat ≤ 122) ∨ (65 ≤ c.toNat ∧ c.toNat ≤ 90) ∨
    (48 ≤ c.toNat ∧ c.toNat ≤ 57) ∨ c.toNat = 95)

/-- JavaScript whitespace for `String.prototype.trim`: space, tab, LF, CR,
vertical tab, form feed, NBSP, the line/paragraph separators and the BOM
(code points 32, 9, 10, 13, 11, 12, 160, 8232, 8233, 65279). -/
def jsWs (c : Char) : Bool :=
  decide (c.toNat = 32 ∨ c.toNat = 9 ∨ c.toNat = 10 ∨ c.toNat = 13 ∨
    c.toNat = 11 ∨ c.toNat = 12 ∨ c.toNat = 160 ∨ c.toNat = 8232 ∨
    c.toNat = 8233 ∨ c.toNat = 65279)

/-- `s.trim()`: strip `jsWs` characters from both ends. -/
def jsTrim (cs : List Char) : List Char :=
  ((cs.dropWhile jsWs).reverse.dropWhile jsWs).reverse

/-- `s.split(/\W+/)` on a list of characters: split at maximal runs of
non-word characters.  As in JavaScript, a separator run touching the start
or the end of the string contributes an empty token on that side, and the
empty string splits to `[""]`.  A separator immediately followed by another
separator belongs to the same run, so it produces no additional token. -/
def splitNonWord : List Char → List (List Char)
  | [] => [[]]
  | [c] => if isWordChar c then [[c]] else [[], []]
  | c :: d :: rest =>
    if isWordChar c then
      match splitNonWord (d :: rest) with
      | t :: ts => (c :: t) :: ts
      | [] => [[c]]
    else if isWordChar d then [] :: splitNonWord (d :: rest)
    else splitNonWord (d :: rest)

/-- `Math.round` on an exact rational: the closest integer, ties towards
positive infinity (the ECMAScript definition). -/
def jsRound (q : ℚ) : ℤ := ⌊q + 1/2⌋

/-- Line 183: `jobDescription.toLowerCase().split(/\W+/).filter(w => w.length > 2)`. -/
def jobWords (jobDescription : String) : List (List Char) :=
  (splitNonWord (jobDescription.data.map Char.toLower)).filter
    (fun w => decide (w.length > 2))

/-- Line 184: `resumeText.toLowerCase().split(/\W+/)`. -/
def resumeWords (resumeText : String) : List (List Char) :=
  splitNonWord (resumeText.data.map Char.toLower)

/-- Line 186: `jobWords.filter(w => w && !resumeWords.includes(w))` —
the full missing list, before truncation. -/
def missingWords (resumeText jobDescription : String) : List (List Char) :=
  (jobWords jobDescription).filter
    (fun w => !w.isEmpty && !(resumeWords resumeText).contains w)

/-- Lines 187-189, `jobWords.length ? Math.round(((jobWords.length -
missing.length) / jobWords.length) * 100) : 0`, with the ratio evaluated
in exact rational arithmetic — the idealization of the JavaScript double
computation; `matchScoreFl` below is the bit-faithful binary64 version,
and the two differ by at most one unit. -/
def matchScore (resumeText jobDescription : String) : ℤ :=
  if (jobWords jobDescription).length ≠ 0 then
    jsRound ((((jobWords jobDescription).length : ℚ) -
        ((missingWords resumeText jobDescription).length : ℚ)) /
        ((jobWords jobDescription).length : ℚ) * 100)
  else 0

/-- Line 191: `missing.slice(0, 20)` — the missing list sent to the client. -/
def missingTruncated (resumeText jobDescription : String) : List (List Char) :=
  (missingWords resumeText jobDescription).take 20

/-- Written from the spec wording (section 4.2 step 4 and claim C1):
`matchScore = round(((totalJobTokens - missingCount) / totalJobTokens) *
100)`, where `totalJobTokens` counts the qualifying job tokens,
`missingCount` counts the missing tokens before any truncation, and the
score is 0 when `totalJobTokens` is 0. -/
def matchScoreSpec (resumeText jobDescription : String) : ℤ :=
  if (jobWords jobDescription).length = 0 then 0
  else jsRound ((((jobWords jobDescription).length : ℚ) -
      ((missingWords resumeText jobDescription).length : ℚ)) /
      ((jobWords jobDescription).length : ℚ) * 100)

/-- Written from the wording of claim C2, which reads "qualifying" as
job tokens of length > 3 characters (the code filters at length > 2). -/
def jobWordsGt3 (jobDescription : String) : List (List Char) :=
  (splitNonWord (jobDescription.data.map Char.toLower)).filter
    (fun w => decide (w.length > 3))

/-! ### Binary64 model of the score arithmetic

JavaScript evaluates `((jobWords.length - missing.length) /
jobWords.length) * 100` in IEEE-754 binary64: each operation rounds its
exact result to 53 significant bits, nearest, ties to even.  The two
integer operands are exact in binary64 (array lengths), and so is their
difference, so the computation is `fl(a / n)` followed by
`fl(fl(a / n) * 100)`.  `flRound` below performs this rounding for a
positive rational `p / q` below `2 ^ 53` (the only range the pipeline
reaches: the quotient lies in `[0, 1]` and the product in `[0, 100.5]`,
far from overflow and subnormals), representing the result as a
significand over a power-of-two denominator. -/

/-- Nearest integer to `p / q`, ties to the even candidate — the IEEE-754
significand rounding. -/
def rne (p q : ℕ) : ℕ :=
  if 2 * (p % q) < q then p / q
  else if q < 2 * (p % q) then p / q + 1
  else if p / q % 2 = 0 then p / q else p / q + 1

/-- Counting up from `k`, the first scale with `2 ^ 52 * q ≤ p * 2 ^ k`
(`fuel` bounds the search; `flScale` always supplies enough). -/
def flScaleAux (p q : ℕ) : ℕ → ℕ → ℕ
  | 0, k => k
  | fuel + 1, k =>
    if 2 ^ 52 * q ≤ p * 2 ^ k then k else flScaleAux p q fuel (k + 1)

/-- The scale `k` that normalizes `p / q` into `[2 ^ 52, 2 ^ 53)` when
multiplied by `2 ^ k`: the smallest `k` with `2 ^ 52 * q ≤ p * 2 ^ k`. -/
def flScale (p q : ℕ) : ℕ := flScaleAux p q (53 + q) 0

/-- Binary64 rounding of the non-negative rational `p / q`: a pair
`(s, k)` with `fl(p / q) = s / 2 ^ k`, the significand `s` produced by
round-to-nearest-even at the normalizing scale. -/
def flRound (p q : ℕ) : ℕ × ℕ :=
  if p = 0 ∨ q = 0 then (0, 0)
  else (rne (p * 2 ^ flScale p q) q, flScale p q)

/-- Lines 187-189 as the program actually computes them: the score ratio
evaluated in binary64 — `fl((n - m) / n)`, then `fl(· * 100)` — and then
`Math.round`, with 0 when there is no qualifying job token. -/
def matchScoreFl (resumeText jobDescription : String) : ℤ :=
  if (jobWords jobDescription).length ≠ 0 then
    let a := (jobWords jobDescription).length -
      (missingWords resumeText jobDescription).length
    let u := flRound a (jobWords jobDescription).length
    let v := flRound (100 * u.1) (2 ^ u.2)
    jsRound ((v.1 : ℚ) / 2 ^ v.2)
  else 0

/-! ### Request/response model of the two POST routes

External effects are oracle inputs: `ExtractOutcome` stands for the result
of `fs.readFile` plus the parser (`pdf-parse` or `mammoth`) the handler
selects for the file's mimetype; `LlmOutcome` stands for the Hugging Face
`chatCompletion` call.  The `fileStored` flag records whether multer wrote
the temporary upload to disk (it does not when no file is attached, nor
when its `fileFilter` rejects the mimetype), and `fileDeleted` records
whether `fs.unlink` was invoked on it (the `finally` block). -/

/-- Result of reading the stored file and running the selected parser. -/
inductive ExtractOutcome where
  | ok (text : String)
  | err (msg : String)
deriving DecidableEq

/-- Result of the `hf.chatCompletion` call: either it throws, or it returns
with `result?.choices?.[0]?.message?.content` equal to the given string
(`""` standing for any falsy content, which the handler turns into a
thrown `No valid response from Hugging Face`). -/
inductive LlmOutcome where
  | ok (content : String)
  | threw (msg : String)
deriving DecidableEq

/-- An attached multipart file: its declared mimetype and the extraction
oracle for its bytes. -/
structure FileUpload where
  mimetype : String
  extract : ExtractOutcome
deriving DecidableEq

/-- A request to `POST /api/keyword-match`. -/
structure KmRequest where
  file : Option FileUpload
  jobDescription : Option String
deriving DecidableEq

/-- A request to `POST /upload`. -/
structure UpRequest where
  file : Option FileUpload
  llm : LlmOutcome
deriving DecidableEq

/-- The JSON body of a response. -/
inductive RespBody where
  | matchBody (matchScore : ℤ) (missing : List (List Char))
  | analysisBody (analysis : String)
  | errBody (error : String)
deriving DecidableEq

/-- Observable outcome of one request: HTTP status, JSON body, and the
fate of the temporary upload. -/
structure RouteResult where
  status : ℕ
  body : RespBody
  fileStored : Bool
  fileDeleted : Bool
deriving DecidableEq

def pdfType : String := "application/pdf"

def docxType : String :=
  "application/vnd.openxmlformats-officedocument.wordprocessingml.document"

def mswordType : String := "application/msword"

/-- Lines 58-62: the multer `fileFilter` allow-list. -/
def allowedTypes : List String := [pdfType, docxType, mswordType]

/-- Lines 155-205, `POST /api/keyword-match`.  Multer's `fileFilter` error
is handled by the error-handling middleware of lines 212-218 (status 500,
`"Internal server error"`); every path of the handler body runs inside
`try ... finally fs.unlink`, so it both stores and deletes the temporary
file. -/
def keywordMatchRoute (req : KmRequest) : RouteResult :=
  match req.file with
  | none => ⟨400, .errBody "No file uploaded", false, false⟩
  | some f =>
    if allowedTypes.contains f.mimetype then
      let extracted : Except String String :=
        if f.mimetype == pdfType then
          match f.extract with
          | .ok t => .ok t
          | .err m => .error m
        else if f.mimetype == docxType || f.mimetype == mswordType then
          match f.extract with
          | .ok t => .ok t
          | .err m => .error m
        else .ok ""
      match extracted with
      | .error _ => ⟨500, .errBody "Something went wrong on server", true, true⟩
      | .ok resumeText =>
        let jobDescription := req.jobDescription.getD ""
        if jsTrim jobDescription.data = [] then
          ⟨400, .errBody "Job description is required", true, true⟩
        else
          ⟨200, .matchBody (matchScore resumeText jobDescription)
            (missingTruncated resumeText jobDescription), true, true⟩
    else
      ⟨500, .errBody "Internal server error", false, false⟩

/-- Lines 80-152, `POST /upload`.  Same multer front end; the handler's own
`else` branch returning 400 `"Unsupported file type. Upload a PDF or
DOCX."` is unreachable because the `fileFilter` allow-list coincides with
the mimetypes the handler dispatches on. -/
def uploadRoute (req : UpRequest) : RouteResult :=
  match req.file with
  | none => ⟨400, .errBody "No file uploaded", false, false⟩
  | some f =>
    if allowedTypes.contains f.mimetype then
      if f.mimetype == pdfType ||
          (f.mimetype == docxType || f.mimetype == mswordType) then
        match f.extract with
        | .err _ => ⟨500, .errBody "Server error while analyzing resume.", true, true⟩
        | .ok resumeText =>
          if jsTrim resumeText.data = [] then
            ⟨400, .errBody "Could not extract text from resume.", true, true⟩
          else
            match req.llm with
            | .threw _ =>
              ⟨500, .errBody "Server error while analyzing resume.", true, true⟩
            | .ok content =>
              if content = "" then
                ⟨500, .errBody "Server error while analyzing resume.", true, true⟩
              else ⟨200, .analysisBody content, true, true⟩
      else
        ⟨400, .errBody "Unsupported file type. Upload a PDF or DOCX.", true, true⟩
    else
      ⟨500, .errBody "Internal server error", false, false⟩

/-- The missing list is a filtering of the qualifying job tokens, so it is
never longer. -/
lemma missingWords_length_le (r jd : String) :
    (missingWords r jd).length ≤ (jobWords jd).length :=
  List.length_filter_le _ _

/-- Closed form of the score: for `n` qualifying job tokens of which `m`
are missing, `Math.round(((n - m) / n) * 100)` is the natural-number
division `(200 * (n - m) + n) / (2 * n)`. -/
lemma matchScore_eq_natDiv (r jd : String) :
    matchScore r jd =
      if (jobWords jd).length = 0 then 0
      else (((200 * ((jobWords jd).length - (missingWords r jd).length) +
          (jobWords jd).length) / (2 * (jobWords jd).length) : ℕ) : ℤ) := by
  have hmn : (missingWords r jd).length ≤ (jobWords jd).length :=
    missingWords_length_le r jd
  unfold matchScore jsRound
  set n := (jobWords jd).length with hn
  set m := (missingWords r jd).length with hm
  by_cases h : n = 0
  · simp [h]
  · have hn0 : (n : ℚ) ≠ 0 := Nat.cast_ne_zero.mpr h
    have key : ((n : ℚ) - (m : ℚ)) / (n : ℚ) * 100 + 1 / 2 =
        ((200 * (n - m) + n : ℕ) : ℚ) / ((2 * n : ℕ) : ℚ) := by
      push_cast [Nat.cast_sub hmn]
      field_simp
      ring
    simp only [h, if_true, if_false, ne_eq, not_false_iff]
    rw [key, Rat.floor_natCast_div_natCast, Int.natCast_div]

/-- The score is never negative. -/
lemma matchScore_nonneg (r jd : String) : 0 ≤ matchScore r jd := by
  rw [matchScore_eq_natDiv]
  split
  · exact le_refl 0
  · exact Int.natCast_nonneg _

/-- The score never exceeds 100. -/
lemma matchScore_le_100 (r jd : String) : matchScore r jd ≤ 100 := by
  have hmn : (missingWords r jd).length ≤ (jobWords jd).length :=
    missingWords_length_le r jd
  rw [matchScore_eq_natDiv]
  split
  · norm_num
  · rename_i h
    have hlt : (200 * ((jobWords jd).length - (missingWords r jd).length) +
        (jobWords jd).length) / (2 * (jobWords jd).length) < 101 := by
      rw [Nat.div_lt_iff_lt_mul (by omega)]
      omega
    exact_mod_cast Nat.lt_succ_iff.mp hlt

/-- Exact criterion for a perfect score: the score is 100 iff there is at
least one qualifying job token and the missing count `m` satisfies
`200 * m ≤ n` (rounding sends any ratio of at least 99.5% to 100). -/
lemma matchScore_eq_100_iff (r jd : String) :
    matchScore r jd = 100 ↔
      0 < (jobWords jd).length ∧
        200 * (missingWords r jd).length ≤ (jobWords jd).length := by
  have hmn : (missingWords r jd).length ≤ (jobWords jd).length :=
    missingWords_length_le r jd
  rw [matchScore_eq_natDiv]
  split
  · rename_i h
    simp [h]
  · rename_i h
    set n := (jobWords jd).length with hn
    set m := (missingWords r jd).length with hm
    have h2n : 0 < 2 * n := by omega
    constructor
    · intro hcast
      have h100 : (200 * (n - m) + n) / (2 * n) = 100 := by exact_mod_cast hcast
      have hle : 100 * (2 * n) ≤ 200 * (n - m) + n := by
        rw [← h100]
        exact Nat.div_mul_le_self _ _
      exact ⟨by omega, by omega⟩
    · intro ⟨_, h200⟩
      have h100 : (200 * (n - m) + n) / (2 * n) = 100 := by
        have hle : 100 ≤ (200 * (n - m) + n) / (2 * n) := by
          rw [Nat.le_div_iff_mul_le h2n]
          omega
        have hlt : (200 * (n - m) + n) / (2 * n) < 101 := by
          rw [Nat.div_lt_iff_lt_mul h2n]
          omega
        omega
      exact_mod_cast congrArg (Nat.cast : ℕ → ℤ) h100

/-- The code and spec formulations of the score computation agree: the two
`if`s test opposite sides of the same condition. -/
lemma matchScore_eq_matchScoreSpec (r jd : String) :
    matchScore r jd = matchScoreSpec r jd := by
  unfold matchScore matchScoreSpec
  by_cases h : (jobWords jd).length = 0 <;> simp [h]

/-- `Char.toLower` adds 32 to the code point of an upper-case ASCII letter
and is the identity elsewhere. -/
lemma toNat_toLower (c : Char) :
    (Char.toLower c).toNat =
      if c.toNat ≥ 65 ∧ c.toNat ≤ 90 then c.toNat + 32 else c.toNat := by
  simp only [Char.toLower]
  split
  · rename_i h
    have hv : (c.toNat + 32).isValidChar := Or.inl (by omega)
    rw [Char.ofNat, dif_pos hv]
    rfl
  · rfl

/-- Lower-casing does not change whether a character is a word character:
it moves code points 65-90 onto 97-122, both inside the class. -/
lemma isWordChar_toLower (c : Char) :
    isWordChar (Char.toLower c) = isWordChar c := by
  simp only [isWordChar, decide_eq_decide, toNat_toLower]
  split <;> omega

/-- No whitespace character is a word character. -/
lemma jsWs_isWordChar {c : Char} (h : jsWs c = true) : isWordChar c = false := by
  simp only [jsWs, decide_eq_true_eq] at h
  simp only [isWordChar, decide_eq_false_iff_not]
  omega

/-- Lower-casing keeps whitespace whitespace (no whitespace code point is
an upper-case letter). -/
lemma jsWs_toLower {c : Char} (h : jsWs c = true) :
    jsWs (Char.toLower c) = true := by
  simp only [jsWs, decide_eq_true_eq, toNat_toLower] at h ⊢
  split <;> omega

/-- The split of any string is a non-empty list of tokens. -/
lemma splitNonWord_ne_nil : ∀ cs : List Char, splitNonWord cs ≠ []
  | [] => by simp [splitNonWord]
  | [c] => by
    simp only [splitNonWord]
    split <;> simp
  | c :: d :: rest => by
    simp only [splitNonWord]
    split
    · split <;> simp
    · split
      · simp
      · exact splitNonWord_ne_nil (d :: rest)

/-- Tokenization commutes with lower-casing: splitting the lower-cased
string yields the lower-cased tokens of the original string. -/
lemma splitNonWord_map_toLower : ∀ cs : List Char,
    splitNonWord (cs.map Char.toLower) =
      (splitNonWord cs).map (List.map Char.toLower)
  | [] => by simp [splitNonWord]
  | [c] => by
    simp only [List.map_cons, List.map_nil, splitNonWord, isWordChar_toLower]
    split <;> simp
  | c :: d :: rest => by
    have ih := splitNonWord_map_toLower (d :: rest)
    rw [List.map_cons] at ih
    simp only [List.map_cons, splitNonWord, isWordChar_toLower, ih]
    cases h : splitNonWord (d :: rest) with
    | nil => exact absurd h (splitNonWord_ne_nil _)
    | cons t ts =>
      by_cases hc : isWordChar c = true <;> by_cases hd : isWordChar d = true <;>
        simp [hc, hd, h]

/-- A string with no word characters splits into empty tokens only. -/
lemma splitNonWord_all_nil : ∀ cs : List Char,
    (∀ c ∈ cs, isWordChar c = false) → ∀ t ∈ splitNonWord cs, t = []
  | [], _, t, ht => by
    simp only [splitNonWord, List.mem_singleton] at ht
    exact ht
  | [c], h, t, ht => by
    have hc := h c (by simp)
    simp only [splitNonWord, hc, Bool.false_eq_true, if_false, List.mem_cons,
      List.not_mem_nil, or_false] at ht
    rcases ht with rfl | rfl <;> rfl
  | c :: d :: rest, h, t, ht => by
    have hc := h c (by simp)
    have hd := h d (by simp)
    simp only [splitNonWord, hc, hd, Bool.false_eq_true, if_false] at ht
    exact splitNonWord_all_nil (d :: rest)
      (fun x hx => h x (List.mem_cons_of_mem c hx)) t ht

/-- A string made of whitespace only trims to the empty string. -/
lemma jsTrim_eq_nil_of_all {cs : List Char} (h : ∀ c ∈ cs, jsWs c = true) :
    jsTrim cs = [] := by
  have h1 : cs.dropWhile jsWs = [] := List.dropWhile_eq_nil_iff.mpr h
  simp [jsTrim, h1]

/-- Against a whitespace-only (or empty) resume, every qualifying job
token is missing. -/
lemma missingWords_of_blank (r jd : String) (h : ∀ c ∈ r.data, jsWs c = true) :
    missingWords r jd = jobWords jd := by
  have hall : ∀ x ∈ r.data.map Char.toLower, isWordChar x = false := by
    intro x hx
    obtain ⟨c, hc, rfl⟩ := List.mem_map.mp hx
    exact jsWs_isWordChar (jsWs_toLower (h c hc))
  unfold missingWords
  apply List.filter_eq_self.mpr
  intro w hw
  obtain ⟨hmem, hlen⟩ := List.mem_filter.mp hw
  have hw3 : 2 < w.length := of_decide_eq_true hlen
  have hnot : (resumeWords r).contains w = false := by
    rw [Bool.eq_false_iff]
    intro hcon
    have hmemr : w ∈ resumeWords r := List.elem_iff.mp hcon
    have : w = [] := splitNonWord_all_nil _ hall w hmemr
    simp [this] at hw3
  have hempty : w.isEmpty = false := by
    cases w with
    | nil => simp at hw3
    | cons a l => rfl
  rw [Bool.and_eq_true, Bool.not_eq_true', Bool.not_eq_true']
  exact ⟨hempty, hnot⟩

/-- Against a whitespace-only (or empty) resume the score is 0. -/
lemma matchScore_of_blank (r jd : String) (h : ∀ c ∈ r.data, jsWs c = true) :
    matchScore r jd = 0 := by
  rw [matchScore_eq_natDiv, missingWords_of_blank r jd h]
  split
  · rfl
  · rename_i h0
    rw [Nat.sub_self, Nat.mul_zero, Nat.zero_add]
    rw [Nat.div_eq_of_lt (by omega)]
    rfl

/-- The rounded significand is within half a unit of the exact quotient:
`|rne p q - p / q| ≤ 1 / 2`, stated multiplied out over `ℤ`. -/
lemma rne_spec (p q : ℕ) (hq : 0 < q) :
    -(q : ℤ) ≤ 2 * ((rne p q : ℤ) * q - p) ∧
      2 * ((rne p q : ℤ) * q - p) ≤ q := by
  unfold rne
  set d := p / q with hd
  set r := p % q with hrdef
  have hr : (r : ℤ) < q := by
    rw [hrdef]
    exact_mod_cast Nat.mod_lt _ hq
  have hp : (p : ℤ) = q * d + r := by
    rw [hd, hrdef]
    exact_mod_cast (Nat.div_add_mod p q).symm
  rw [hp]
  split
  · rename_i h1
    have h1z : 2 * (r : ℤ) < q := by exact_mod_cast h1
    constructor <;> push_cast <;> nlinarith [h1z, hr]
  · rename_i h1
    have h1z : (q : ℤ) ≤ 2 * r := by exact_mod_cast Nat.le_of_not_lt h1
    split
    · rename_i h2
      have h2z : (q : ℤ) < 2 * r := by exact_mod_cast h2
      constructor <;> push_cast <;> nlinarith [h2z, hr]
    · rename_i h2
      have h2z : 2 * (r : ℤ) ≤ q := by exact_mod_cast Nat.le_of_not_lt h2
      split <;> exact ⟨by push_cast; nlinarith [h1z, h2z, hr],
        by push_cast; nlinarith [h1z, h2z, hr]⟩

/-- Invariant of the scale search: starting below a scale that satisfies
the bound and with all earlier scales failing it, the search returns a
scale that satisfies the bound while its predecessor does not. -/
lemma flScaleAux_spec (p q : ℕ) : ∀ (fuel k : ℕ),
    2 ^ 52 * q ≤ p * 2 ^ (k + fuel) →
    (k = 0 ∨ p * 2 ^ (k - 1) < 2 ^ 52 * q) →
    2 ^ 52 * q ≤ p * 2 ^ flScaleAux p q fuel k ∧
      (flScaleAux p q fuel k = 0 ∨
        p * 2 ^ (flScaleAux p q fuel k - 1) < 2 ^ 52 * q)
  | 0, k, hfuel, hinv => by
    rw [flScaleAux]
    exact ⟨by simpa using hfuel, hinv⟩
  | fuel + 1, k, hfuel, hinv => by
    rw [flScaleAux]
    split
    · rename_i hcond
      exact ⟨hcond, hinv⟩
    · rename_i hcond
      apply flScaleAux_spec p q fuel (k + 1) ?_ (Or.inr ?_)
      · have harr : k + 1 + fuel = k + (fuel + 1) := by omega
        rw [harr]
        exact hfuel
      · simpa using Nat.lt_of_not_le hcond

/-- The chosen scale normalizes: `2 ^ 52 * q ≤ p * 2 ^ flScale p q`, and
the scale is minimal. -/
lemma flScale_spec (p q : ℕ) (hp : 0 < p) (hq : 0 < q) :
    2 ^ 52 * q ≤ p * 2 ^ flScale p q ∧
      (flScale p q = 0 ∨ p * 2 ^ (flScale p q - 1) < 2 ^ 52 * q) := by
  apply flScaleAux_spec p q (53 + q) 0 ?_ (Or.inl rfl)
  have h2 : q < 2 ^ q := Nat.lt_two_pow q
  calc 2 ^ 52 * q ≤ 2 ^ 52 * 2 ^ q := Nat.mul_le_mul_left _ (le_of_lt h2)
    _ = 2 ^ (52 + q) := (pow_add 2 52 q).symm
    _ ≤ 2 ^ (0 + (53 + q)) := Nat.pow_le_pow_right (by norm_num) (by omega)
    _ ≤ p * 2 ^ (0 + (53 + q)) := Nat.le_mul_of_pos_left _ hp

/-- `Math.round` of a dyadic `s / 2 ^ k` as a natural-number division. -/
lemma jsRound_natCast_div_pow (s k : ℕ) :
    jsRound ((s : ℚ) / 2 ^ k) = (((2 * s + 2 ^ k) / 2 ^ (k + 1) : ℕ) : ℤ) := by
  unfold jsRound
  have key : (s : ℚ) / 2 ^ k + 1 / 2 =
      ((2 * s + 2 ^ k : ℕ) : ℚ) / ((2 ^ (k + 1) : ℕ) : ℚ) := by
    push_cast
    rw [pow_succ]
    field_simp
    ring
  rw [key, Rat.floor_natCast_div_natCast]
  exact (Int.natCast_div _ _).symm

/-- Evaluation form of the binary64 score: the final rounding as a
natural-number division, so that concrete inputs reduce in the kernel. -/
lemma matchScoreFl_eq_natDiv (r jd : String) :
    matchScoreFl r jd =
      if (jobWords jd).length = 0 then 0
      else
        let a := (jobWords jd).length - (missingWords r jd).length
        let u := flRound a (jobWords jd).length
        let v := flRound (100 * u.1) (2 ^ u.2)
        (((2 * v.1 + 2 ^ v.2) / 2 ^ (v.2 + 1) : ℕ) : ℤ) := by
  unfold matchScoreFl
  by_cases h : (jobWords jd).length = 0
  · simp [h]
  · simp only [h, ne_eq, not_false_iff, if_true, if_false]
    exact jsRound_natCast_div_pow _ _

/-- `Math.round` moves by at most one unit when its argument moves by at
most one half. -/
lemma jsRound_le_of_le_add_half {x y : ℚ} (h : x ≤ y + 1 / 2) :
    jsRound x ≤ jsRound y + 1 := by
  unfold jsRound
  have h2 : x + 1 / 2 ≤ y + 1 / 2 + 1 := by linarith
  calc ⌊x + 1 / 2⌋ ≤ ⌊y + 1 / 2 + 1⌋ := Int.floor_le_floor h2
    _ = ⌊y + 1 / 2⌋ + 1 := Int.floor_add_one _

/-- `Math.round` drops by at most one unit when its argument drops by at
most one half. -/
lemma jsRound_ge_of_ge_sub_half {x y : ℚ} (h : y - 1 / 2 ≤ x) :
    jsRound y - 1 ≤ jsRound x := by
  unfold jsRound
  have h2 : y + 1 / 2 - 1 ≤ x + 1 / 2 := by linarith
  calc ⌊y + 1 / 2⌋ - 1 = ⌊y + 1 / 2 - 1⌋ := (Int.floor_sub_one _).symm
    _ ≤ ⌊x + 1 / 2⌋ := Int.floor_le_floor h2

/-- Pure arithmetic core of the rounding analysis: if `s1 / P1`
approximates `a / n` to half an ulp at scale `P1 ≥ 2 ^ 52`, and `s2 / P2`
approximates `100 * s1 / P1` likewise, then `s2 * n` is within half of
`100 * a * P2` relative to `n * P2`. -/
lemma flCore (a n s1 s2 P1 P2 : ℤ)
    (hn : 0 < n) (ha : 0 < a) (han : a ≤ n)
    (hP1 : 2 ^ 52 ≤ P1) (hP2pos : 0 < P2)
    (hr1l : -n ≤ 2 * (s1 * n - a * P1)) (hr1u : 2 * (s1 * n - a * P1) ≤ n)
    (hb2 : 2 ^ 52 * P1 ≤ 100 * s1 * P2)
    (hr2l : -P1 ≤ 2 * (s2 * P1 - 100 * s1 * P2))
    (hr2u : 2 * (s2 * P1 - 100 * s1 * P2) ≤ P1) :
    -(n * P2) ≤ 2 * (s2 * n - 100 * a * P2) ∧
      2 * (s2 * n - 100 * a * P2) ≤ n * P2 := by
  have hP1pos : (0 : ℤ) < P1 := by linarith
  have hs1le : s1 ≤ P1 := by
    have hmul : a * P1 ≤ n * P1 := mul_le_mul_of_nonneg_right han (by linarith)
    have h1 : (2 * s1) * n ≤ (1 + 2 * P1) * n := by nlinarith [hr1u, hmul]
    have h2 : 2 * s1 ≤ 1 + 2 * P1 := le_of_mul_le_mul_right h1 hn
    omega
  have hP2 : 2 ≤ P2 := by
    have hup : 100 * s1 * P2 ≤ 100 * P1 * P2 := by
      have := mul_le_mul_of_nonneg_right
        (mul_le_mul_of_nonneg_left hs1le (show (0 : ℤ) ≤ 100 by norm_num))
        (le_of_lt hP2pos)
      linarith
    have h1 : (2 ^ 52) * P1 ≤ (100 * P2) * P1 := by nlinarith [hb2, hup]
    have h2 : (2 : ℤ) ^ 52 ≤ 100 * P2 := le_of_mul_le_mul_right h1 hP1pos
    omega
  have h4 : P1 + 100 * P2 ≤ P1 * P2 := by
    nlinarith [mul_nonneg (show (0 : ℤ) ≤ P1 - 200 by omega)
      (show (0 : ℤ) ≤ P2 - 2 by omega)]
  have t3 : n * P1 + (100 * P2) * n ≤ (n * P2) * P1 := by
    nlinarith [mul_le_mul_of_nonneg_left h4 (le_of_lt hn)]
  have e1 : 2 * (s2 * n - 100 * a * P2) * P1 =
      n * (2 * (s2 * P1 - 100 * s1 * P2)) +
        (100 * P2) * (2 * (s1 * n - a * P1)) := by ring
  constructor
  · have t1 : -(n * P1) ≤ n * (2 * (s2 * P1 - 100 * s1 * P2)) := by
      have := mul_le_mul_of_nonneg_left hr2l (le_of_lt hn)
      linarith
    have t2 : -((100 * P2) * n) ≤ (100 * P2) * (2 * (s1 * n - a * P1)) := by
      have := mul_le_mul_of_nonneg_left hr1l
        (show (0 : ℤ) ≤ 100 * P2 by linarith)
      linarith
    have hs : -(n * P2) * P1 ≤ 2 * (s2 * n - 100 * a * P2) * P1 := by
      rw [e1]
      nlinarith [t1, t2, t3]
    exact le_of_mul_le_mul_right hs hP1pos
  · have t1 : n * (2 * (s2 * P1 - 100 * s1 * P2)) ≤ n * P1 :=
      mul_le_mul_of_nonneg_left hr2u (le_of_lt hn)
    have t2 : (100 * P2) * (2 * (s1 * n - a * P1)) ≤ (100 * P2) * n :=
      mul_le_mul_of_nonneg_left hr1u (show (0 : ℤ) ≤ 100 * P2 by linarith)
    have hs : 2 * (s2 * n - 100 * a * P2) * P1 ≤ (n * P2) * P1 := by
      rw [e1]
      linarith [t1, t2, t3]
    exact le_of_mul_le_mul_right hs hP1pos

/-- The two binary64 roundings lose less than half a unit in total: for
`0 < a ≤ n` the pipeline value `fl(fl(a / n) * 100)` lies within `1 / 2`
of the exact `100 * a / n` (its error is in fact below `2 ^ (-45)`, but
half a unit is all the rounding argument needs). -/
lemma flPipeline_close (a n : ℕ) (ha : 0 < a) (han : a ≤ n) :
    (100 * a : ℚ) / n - 1 / 2 ≤
        ((flRound (100 * (flRound a n).1) (2 ^ (flRound a n).2)).1 : ℚ) /
          2 ^ (flRound (100 * (flRound a n).1) (2 ^ (flRound a n).2)).2 ∧
      ((flRound (100 * (flRound a n).1) (2 ^ (flRound a n).2)).1 : ℚ) /
          2 ^ (flRound (100 * (flRound a n).1) (2 ^ (flRound a n).2)).2 ≤
        (100 * a : ℚ) / n + 1 / 2 := by
  have hn : 0 < n := lt_of_lt_of_le ha han
  have hu : flRound a n = (rne (a * 2 ^ flScale a n) n, flScale a n) := by
    rw [flRound, if_neg]
    push_neg
    exact ⟨ha.ne', hn.ne'⟩
  obtain ⟨hb1, -⟩ := flScale_spec a n ha hn
  obtain ⟨hr1l, hr1u⟩ := rne_spec (a * 2 ^ flScale a n) n hn
  rw [hu]
  dsimp only
  generalize hk1g : flScale a n = k1 at hb1 hr1l hr1u ⊢
  generalize hs1g : rne (a * 2 ^ k1) n = s1 at hr1l hr1u ⊢
  have hs1pos : 0 < s1 := by
    rcases Nat.eq_zero_or_pos s1 with h0 | h0
    · exfalso
      subst h0
      have hz : (2 : ℤ) * (a * 2 ^ k1) ≤ n := by push_cast at hr1l; linarith
      have hb1z : (2 : ℤ) ^ 52 * n ≤ a * 2 ^ k1 := by exact_mod_cast hb1
      have hnz : (0 : ℤ) < n := by exact_mod_cast hn
      linarith
    · exact h0
  have hq2 : (0 : ℕ) < 2 ^ k1 := pow_pos (by norm_num) k1
  have hp2 : 0 < 100 * s1 := by positivity
  have hv : flRound (100 * s1) (2 ^ k1) =
      (rne (100 * s1 * 2 ^ flScale (100 * s1) (2 ^ k1)) (2 ^ k1),
        flScale (100 * s1) (2 ^ k1)) := by
    rw [flRound, if_neg]
    push_neg
    exact ⟨hp2.ne', hq2.ne'⟩
  obtain ⟨hb2, -⟩ := flScale_spec (100 * s1) (2 ^ k1) hp2 hq2
  obtain ⟨hr2l, hr2u⟩ := rne_spec (100 * s1 * 2 ^ flScale (100 * s1) (2 ^ k1))
    (2 ^ k1) hq2
  rw [hv]
  dsimp only
  generalize hk2g : flScale (100 * s1) (2 ^ k1) = k2 at hb2 hr2l hr2u ⊢
  generalize hs2g : rne (100 * s1 * 2 ^ k2) (2 ^ k1) = s2 at hr2l hr2u ⊢
  have hnz : (0 : ℤ) < n := by exact_mod_cast hn
  have haz : (0 : ℤ) < a := by exact_mod_cast ha
  have hanz : (a : ℤ) ≤ n := by exact_mod_cast han
  have hb1z : (2 : ℤ) ^ 52 * n ≤ a * 2 ^ k1 := by exact_mod_cast hb1
  have hP1 : (2 : ℤ) ^ 52 ≤ 2 ^ k1 := by
    have h1 : (a : ℤ) * 2 ^ 52 ≤ a * 2 ^ k1 := by nlinarith [hb1z]
    exact le_of_mul_le_mul_left h1 haz
  have hb2z : (2 : ℤ) ^ 52 * 2 ^ k1 ≤ 100 * s1 * 2 ^ k2 := by exact_mod_cast hb2
  push_cast at hr1l hr1u hr2l hr2u
  obtain ⟨hcore_l, hcore_u⟩ := flCore a n s1 s2 (2 ^ k1) (2 ^ k2)
    hnz haz hanz hP1 (by positivity)
    (by linarith [hr1l]) (by linarith [hr1u]) hb2z
    (by linarith [hr2l]) (by linarith [hr2u])
  have hdenq : (0 : ℚ) < (n : ℚ) * 2 ^ k2 := by
    have hq : (0 : ℚ) < (n : ℚ) := by exact_mod_cast hn
    positivity
  have hcu : ((s2 : ℚ) * n - 100 * a * 2 ^ k2) ≤ (n : ℚ) * 2 ^ k2 / 2 := by
    have hq : 2 * ((s2 : ℚ) * n - 100 * a * 2 ^ k2) ≤ (n : ℚ) * 2 ^ k2 := by
      exact_mod_cast hcore_u
    linarith
  have hcl : -((n : ℚ) * 2 ^ k2 / 2) ≤ ((s2 : ℚ) * n - 100 * a * 2 ^ k2) := by
    have hq : -((n : ℚ) * 2 ^ k2) ≤ 2 * ((s2 : ℚ) * n - 100 * a * 2 ^ k2) := by
      exact_mod_cast hcore_l
    linarith
  have lhs_eq : ((s2 : ℚ)) / 2 ^ k2 = ((s2 : ℚ) * n) / ((n : ℚ) * 2 ^ k2) := by
    rw [div_eq_div_iff (by positivity) (ne_of_gt hdenq)]
    ring
  constructor
  · have rhs_eq : (100 * (a : ℚ)) / n - 1 / 2 =
        ((100 * (a : ℚ)) * 2 ^ k2 - (n : ℚ) * 2 ^ k2 / 2) / ((n : ℚ) * 2 ^ k2) := by
      field_simp
      ring
    rw [lhs_eq, rhs_eq, div_le_div_right hdenq]
    linarith [hcl]
  · have rhs_eq : (100 * (a : ℚ)) / n + 1 / 2 =
        ((100 * (a : ℚ)) * 2 ^ k2 + (n : ℚ) * 2 ^ k2 / 2) / ((n : ℚ) * 2 ^ k2) := by
      field_simp
      ring
    rw [lhs_eq, rhs_eq, div_le_div_right hdenq]
    linarith [hcu]

/-- Any keyword-match request with an attached file of an allowed mimetype,
a successful extraction and a non-blank job description reaches the
matcher and returns its result with status 200. -/
lemma keywordMatchRoute_of_ok (f : FileUpload) (jd t : String)
    (hmt : f.mimetype ∈ allowedTypes) (hex : f.extract = .ok t)
    (hjd : jsTrim jd.data ≠ []) :
    keywordMatchRoute ⟨some f, some jd⟩ =
      ⟨200, .matchBody (matchScore t jd) (missingTruncated t jd), true, true⟩ := by
  obtain ⟨mt, ex⟩ := f
  simp only [allowedTypes, List.mem_cons, List.not_mem_nil, or_false] at hmt
  subst hex
  rcases hmt with rfl | rfl | rfl <;>
    simp [keywordMatchRoute, allowedTypes, pdfType, docxType, mswordType, hjd]

/-- In the keyword-match route, the `finally` block deletes the temporary
file exactly when one was stored. -/
lemma km_fileDeleted_eq_fileStored (req : KmRequest) :
    (keywordMatchRoute req).fileDeleted = (keywordMatchRoute req).fileStored := by
  unfold keywordMatchRoute
  rcases req with ⟨_ | f, jd⟩
  · rfl
  · dsimp only
    split
    · split
      · rfl
      · split <;> rfl
    · rfl

/-- In the review route, the `finally` block deletes the temporary file
exactly when one was stored. -/
lemma up_fileDeleted_eq_fileStored (req : UpRequest) :
    (uploadRoute req).fileDeleted = (uploadRoute req).fileStored := by
  unfold uploadRoute
  rcases req with ⟨_ | f, llm⟩
  · rfl
  · dsimp only
    split
    · split
      · split
        · rfl
        · split
          · rfl
          · split
            · rfl
            · split <;> rfl
      · rfl
    · rfl

/-! ### Claims -/

/-- C1 counterexample: the program does not compute the exact
`round(((totalJobTokens - missingCount) / totalJobTokens) * 100)`.  With
40 qualifying job tokens of which 17 are missing, the binary64 evaluation
of `(23 / 40) * 100` lands just below 57.5 (the double is
57.49999999999999289), so `Math.round` returns 57, while the exact
formula rounds 57.5 up to 58. -/
theorem score_formula_binary64_counterexample :
    matchScoreFl "yes" "yes yes yes yes yes yes yes yes yes yes yes yes yes yes yes yes yes yes yes yes yes yes yes nope nope nope nope nope nope nope nope nope nope nope nope nope nope nope nope nope" = 57 ∧
      matchScoreSpec "yes" "yes yes yes yes yes yes yes yes yes yes yes yes yes yes yes yes yes yes yes yes yes yes yes nope nope nope nope nope nope nope nope nope nope nope nope nope nope nope nope nope" = 58 := by
  constructor
  · rw [matchScoreFl_eq_natDiv]
    decide
  · rw [← matchScore_eq_matchScoreSpec, matchScore_eq_natDiv]
    decide

/-- C1 amended: the matcher computes `matchScore` by evaluating
`((totalJobTokens - missingCount) / totalJobTokens) * 100` in IEEE-754
binary64 and applying `Math.round` (`matchScoreFl`), with `missingCount`
counted before truncation and a 0 score when `totalJobTokens` is 0; this
agrees with the exact formula `matchScoreSpec` to within one unit, the
difference being realized only at double-rounding boundaries. -/
theorem match_score_float_within_one (r jd : String) :
    matchScoreSpec r jd - 1 ≤ matchScoreFl r jd ∧
      matchScoreFl r jd ≤ matchScoreSpec r jd + 1 := by
  by_cases hn : (jobWords jd).length = 0
  · unfold matchScoreFl matchScoreSpec
    rw [if_neg (not_not_intro hn), if_pos hn]
    omega
  · have hmn := missingWords_length_le r jd
    have hfl : matchScoreFl r jd =
        jsRound (((flRound (100 * (flRound ((jobWords jd).length -
            (missingWords r jd).length) (jobWords jd).length).1)
            (2 ^ (flRound ((jobWords jd).length -
            (missingWords r jd).length) (jobWords jd).length).2)).1 : ℚ) /
          2 ^ (flRound (100 * (flRound ((jobWords jd).length -
            (missingWords r jd).length) (jobWords jd).length).1)
            (2 ^ (flRound ((jobWords jd).length -
            (missingWords r jd).length) (jobWords jd).length).2)).2) := by
      unfold matchScoreFl
      rw [if_pos hn]
    have hspec : matchScoreSpec r jd =
        jsRound ((100 * (((jobWords jd).length -
            (missingWords r jd).length : ℕ) : ℚ)) / (jobWords jd).length) := by
      unfold matchScoreSpec
      rw [if_neg hn]
      congr 1
      push_cast [Nat.cast_sub hmn]
      ring
    rw [hfl, hspec]
    by_cases ha : (jobWords jd).length - (missingWords r jd).length = 0
    · rw [ha]
      norm_num [flRound, jsRound]
    · have hapos : 0 < (jobWords jd).length - (missingWords r jd).length :=
        Nat.pos_of_ne_zero ha
      have haln : (jobWords jd).length - (missingWords r jd).length ≤
          (jobWords jd).length := Nat.sub_le _ _
      obtain ⟨hlo, hhi⟩ := flPipeline_close _ _ hapos haln
      exact ⟨jsRound_ge_of_ge_sub_half hlo, jsRound_le_of_le_add_half hhi⟩

/-- C2 counterexample: with job description "sql" and an empty resume,
every qualifying job token in the sense of the claim (length > 3) is
trivially present — there are none — yet the score is not 100 (the code
qualifies tokens at length > 2, so "sql" counts and is missing). -/
theorem perfect_score_gt3_counterexample :
    jobWordsGt3 "sql" = [] ∧ matchScore "" "sql" ≠ 100 := by
  constructor
  · decide
  · rw [matchScore_eq_natDiv]
    decide

/-- C2 amended: the score is 100 iff there is at least one qualifying
(length > 2) job token and the missing count `m` satisfies `200 * m ≤ n`
for `n` qualifying tokens; in particular `m = 0` with `n > 0` gives 100,
but rounding also yields 100 whenever at most 1 in 200 qualifying tokens
is missing. -/
theorem perfect_score_iff_amended (r jd : String) :
    matchScore r jd = 100 ↔
      0 < (jobWords jd).length ∧
        200 * (missingWords r jd).length ≤ (jobWords jd).length :=
  matchScore_eq_100_iff r jd

/-- C3: on both routes, whenever the request stored a temporary uploaded
file, the handler's `finally` block deletes it — on success, on
validation failure and on internal error alike. -/
theorem temp_upload_deleted_on_every_path (kreq : KmRequest) (ureq : UpRequest) :
    ((keywordMatchRoute kreq).fileStored = true →
      (keywordMatchRoute kreq).fileDeleted = true) ∧
    ((uploadRoute ureq).fileStored = true →
      (uploadRoute ureq).fileDeleted = true) :=
  ⟨fun h => (km_fileDeleted_eq_fileStored kreq).trans h,
   fun h => (up_fileDeleted_eq_fileStored ureq).trans h⟩

/-- Witness for C3: a successful keyword-match request and a failing
(empty-extraction) review request both store and delete the file. -/
theorem temp_upload_deleted_on_every_path_witness :
    (keywordMatchRoute ⟨some ⟨pdfType, .ok "text"⟩, some "sql job"⟩).fileStored
        = true ∧
    (keywordMatchRoute ⟨some ⟨pdfType, .ok "text"⟩, some "sql job"⟩).fileDeleted
        = true ∧
    (uploadRoute ⟨some ⟨pdfType, .ok ""⟩, .threw "boom"⟩).fileStored = true ∧
    (uploadRoute ⟨some ⟨pdfType, .ok ""⟩, .threw "boom"⟩).fileDeleted = true :=
  ⟨by decide,
   (temp_upload_deleted_on_every_path ⟨some ⟨pdfType, .ok "text"⟩, some "sql job"⟩
     ⟨some ⟨pdfType, .ok ""⟩, .threw "boom"⟩).1 (by decide),
   by decide,
   (temp_upload_deleted_on_every_path ⟨some ⟨pdfType, .ok "text"⟩, some "sql job"⟩
     ⟨some ⟨pdfType, .ok ""⟩, .threw "boom"⟩).2 (by decide)⟩

/-- C4: the missing list sent back is exactly the first at most 20 missing
job tokens in scan order (no deduplication), its length is at most 20 and
at most the number of qualifying job tokens. -/
theorem missing_list_truncated_bounds (f : FileUpload) (jd t : String)
    (hmt : f.mimetype ∈ allowedTypes) (hex : f.extract = .ok t)
    (hjd : jsTrim jd.data ≠ []) :
    (keywordMatchRoute ⟨some f, some jd⟩).body =
        .matchBody (matchScore t jd) ((missingWords t jd).take 20) ∧
      (missingTruncated t jd).length ≤ 20 ∧
      (missingTruncated t jd).length ≤ (jobWords jd).length := by
  refine ⟨?_, ?_, ?_⟩
  · rw [keywordMatchRoute_of_ok f jd t hmt hex hjd]
    rfl
  · rw [missingTruncated, List.length_take]
    omega
  · have h := missingWords_length_le t jd
    rw [missingTruncated, List.length_take]
    omega

/-- Witness for C4 at a concrete request. -/
theorem missing_list_truncated_bounds_witness :
    (keywordMatchRoute ⟨some ⟨pdfType, .ok "I know python well"⟩,
          some "Python and SQL experience required"⟩).body =
        .matchBody (matchScore "I know python well" "Python and SQL experience required")
          ((missingWords "I know python well" "Python and SQL experience required").take 20) ∧
      (missingTruncated "I know python well" "Python and SQL experience required").length
        ≤ 20 ∧
      (missingTruncated "I know python well" "Python and SQL experience required").length
        ≤ (jobWords "Python and SQL experience required").length :=
  missing_list_truncated_bounds ⟨pdfType, .ok "I know python well"⟩
    "Python and SQL experience required" "I know python well"
    (by decide) rfl (by decide)

/-- C5: for non-empty inputs the score is an integer between 0 and 100. -/
theorem match_score_in_unit_range (r jd : String) (hr : r ≠ "") (hjd : jd ≠ "") :
    0 ≤ matchScore r jd ∧ matchScore r jd ≤ 100 :=
  ⟨matchScore_nonneg r jd, matchScore_le_100 r jd⟩

/-- Witness for C5 at concrete non-empty strings. -/
theorem match_score_in_unit_range_witness :
    0 ≤ matchScore "a" "hiring for sql" ∧ matchScore "a" "hiring for sql" ≤ 100 :=
  match_score_in_unit_range "a" "hiring for sql" (by decide) (by decide)

/-- C6, evaluated at the failing input: a `.txt` upload is rejected by
multer's `fileFilter`, whose error reaches the generic error-handling
middleware — the client receives 500 "Internal server error", not the 400
"Unsupported file type" client error the spec promises (the handler's own
400 branch is unreachable). -/
theorem upload_txt_gives_500_internal_error :
    uploadRoute ⟨some ⟨"text/plain", .ok "plain text resume"⟩, .ok "review"⟩ =
      ⟨500, .errBody "Internal server error", false, false⟩ := by
  decide

/-- C7: when extraction succeeds but yields only whitespace, the review
route answers 400 "Could not extract text from resume.". -/
theorem upload_blank_text_client_error (f : FileUpload) (llm : LlmOutcome)
    (t : String) (hmt : f.mimetype ∈ allowedTypes) (hex : f.extract = .ok t)
    (hblank : ∀ c ∈ t.data, jsWs c = true) :
    uploadRoute ⟨some f, llm⟩ =
      ⟨400, .errBody "Could not extract text from resume.", true, true⟩ := by
  obtain ⟨mt, ex⟩ := f
  simp only [allowedTypes, List.mem_cons, List.not_mem_nil, or_false] at hmt
  subst hex
  have htrim : jsTrim t.data = [] := jsTrim_eq_nil_of_all hblank
  rcases hmt with rfl | rfl | rfl <;>
    simp [uploadRoute, allowedTypes, pdfType, docxType, mswordType, htrim]

/-- Witness for C7: a PDF extracting to three spaces. -/
theorem upload_blank_text_client_error_witness :
    uploadRoute ⟨some ⟨pdfType, .ok "   "⟩, .threw "boom"⟩ =
      ⟨400, .errBody "Could not extract text from resume.", true, true⟩ :=
  upload_blank_text_client_error ⟨pdfType, .ok "   "⟩ (.threw "boom") "   "
    (by decide) rfl (by decide)

/-- C8 counterexample: an empty job description does not produce
`{matchScore: 0, missing: []}` — the route rejects it with 400 "Job
description is required". -/
theorem empty_jd_rejected_counterexample :
    keywordMatchRoute ⟨some ⟨pdfType, .ok "an engineer resume"⟩, some ""⟩ =
        ⟨400, .errBody "Job description is required", true, true⟩ ∧
      (keywordMatchRoute ⟨some ⟨pdfType, .ok "an engineer resume"⟩, some ""⟩).body ≠
        .matchBody 0 [] := by
  constructor <;> decide

/-- C8 amended: a blank job description is rejected with 400 "Job
description is required"; a non-blank job description with no qualifying
(length > 2) token yields `matchScore = 0` and `missing = []`. -/
theorem empty_jd_amended (f : FileUpload) (jd t : String)
    (hmt : f.mimetype ∈ allowedTypes) (hex : f.extract = .ok t) :
    (jsTrim jd.data = [] →
      keywordMatchRoute ⟨some f, some jd⟩ =
        ⟨400, .errBody "Job description is required", true, true⟩) ∧
    (jsTrim jd.data ≠ [] → jobWords jd = [] →
      keywordMatchRoute ⟨some f, some jd⟩ =
        ⟨200, .matchBody 0 [], true, true⟩) := by
  constructor
  · intro htrim
    obtain ⟨mt, ex⟩ := f
    simp only [allowedTypes, List.mem_cons, List.not_mem_nil, or_false] at hmt
    subst hex
    rcases hmt with rfl | rfl | rfl <;>
      simp [keywordMatchRoute, allowedTypes, pdfType, docxType, mswordType, htrim]
  · intro htrim hjw
    rw [keywordMatchRoute_of_ok f jd t hmt hex htrim]
    have hsc : matchScore t jd = 0 := by
      rw [matchScore_eq_natDiv, hjw]
      rfl
    have hmiss : missingTruncated t jd = [] := by
      rw [missingTruncated, missingWords, hjw]
      rfl
    rw [hsc, hmiss]

/-- Witness for C8 amended: an empty and a too-short job description. -/
theorem empty_jd_amended_witness :
    keywordMatchRoute ⟨some ⟨pdfType, .ok "text"⟩, some ""⟩ =
        ⟨400, .errBody "Job description is required", true, true⟩ ∧
      keywordMatchRoute ⟨some ⟨pdfType, .ok "text"⟩, some "ab"⟩ =
        ⟨200, .matchBody 0 [], true, true⟩ :=
  ⟨(empty_jd_amended ⟨pdfType, .ok "text"⟩ "" "text" (by decide) rfl).1 (by decide),
   (empty_jd_amended ⟨pdfType, .ok "text"⟩ "ab" "text" (by decide) rfl).2
     (by decide) (by decide)⟩

/-- C9: matching is case-insensitive — a qualifying job token matched by
some resume token up to letter case is reported neither in the full nor in
the truncated missing list. -/
theorem case_insensitive_no_missing (resume jd : String) (t u : List Char)
    (ht : t ∈ jobWords jd) (hu : u ∈ splitNonWord resume.data)
    (hut : u.map Char.toLower = t) :
    t ∉ missingWords resume jd ∧ t ∉ missingTruncated resume jd := by
  have hmemr : t ∈ resumeWords resume := by
    rw [resumeWords, splitNonWord_map_toLower]
    exact List.mem_map.mpr ⟨u, hu, hut⟩
  have hcon : (resumeWords resume).contains t = true := List.elem_iff.mpr hmemr
  have hnm : t ∉ missingWords resume jd := by
    intro hmem
    obtain ⟨_, hpred⟩ := List.mem_filter.mp hmem
    rw [Bool.and_eq_true, Bool.not_eq_true', Bool.not_eq_true'] at hpred
    rw [hpred.2] at hcon
    cases hcon
  exact ⟨hnm, fun hmem => hnm (List.mem_of_mem_take hmem)⟩

/-- Witness for C9: resume "Engineer" matches job token "engineer". -/
theorem case_insensitive_no_missing_witness :
    "engineer".data ∉ missingWords "Engineer" "engineer role" ∧
    "engineer".data ∉ missingTruncated "Engineer" "engineer role" :=
  case_insensitive_no_missing "Engineer" "engineer role"
    "engineer".data "Engineer".data (by decide) (by decide) (by decide)

/-- C10: with a non-blank job description and a blank (empty or
whitespace-only) extracted resume, the route still answers 200: the score
is 0 and the missing list is the first at most 20 qualifying job tokens in
scan order. -/
theorem blank_resume_all_missing (f : FileUpload) (jd t : String)
    (hmt : f.mimetype ∈ allowedTypes) (hex : f.extract = .ok t)
    (hblank : ∀ c ∈ t.data, jsWs c = true) (hjd : jsTrim jd.data ≠ []) :
    keywordMatchRoute ⟨some f, some jd⟩ =
      ⟨200, .matchBody 0 ((jobWords jd).take 20), true, true⟩ := by
  rw [keywordMatchRoute_of_ok f jd t hmt hex hjd,
    matchScore_of_blank t jd hblank, missingTruncated,
    missingWords_of_blank t jd hblank]

/-- Witness for C10: a DOCX whose extraction is empty. -/
theorem blank_resume_all_missing_witness :
    keywordMatchRoute ⟨some ⟨docxType, .ok ""⟩,
        some "Python and SQL experience required"⟩ =
      ⟨200, .matchBody 0
          ((jobWords "Python and SQL experience required").take 20), true, true⟩ :=
  blank_resume_all_missing ⟨docxType, .ok ""⟩
    "Python and SQL experience required" ""
    (by decide) rfl (by decide) (by decide)

end Klyro
